import Mathlib

/-!
# Verification of the GoBase metadata extractor and assignment engine

This file shallowly embeds the core of the TriangleSide/GoBase repository:

* `pkg/utils/fields/struct_metadata.go` — the metadata extractor
  (`processType`, `StructMetadata`): walks a struct type, flattens
  embedded/anonymous sub-structs into a single name → descriptor table,
  and panics on ambiguous (duplicated) flattened field names.
* `pkg/structs` assignment engine (`AssignToField`) — the Go source file is
  not part of the provided sources (only its test suite is), so it is
  modelled from the specification (see the doc comments below).
* `pkg/http/parameters/decode.go` — the HTTP parameter binder
  (`decodeJSONBodyParameters`, `decodeQueryParameters`,
  `decodeHeaderParameters`).

Go's runtime reflection is embedded as an explicit syntax tree of types
(`GoType`, `GoField`); a Go `panic` is modelled as a distinguished fatal
outcome (`Option`/`none` for the extractor, `AssignOutcome.fatal` for the
assignment engine), while recoverable Go `error` values are modelled as
error results.
-/

namespace GoBase

mutual
/-- A model of the Go types that the metadata extractor and the assignment
engine dispatch on.  Leaf kinds carry exactly the information the engine
uses: integer kinds carry their bit width `W`; `strukt` carries the field
list (used both for embedding during metadata extraction and as a
JSON-composite leaf); `ptr` is a Go pointer type; `unhandled` stands for a
kind outside the engine's closed dispatch set (e.g. `uintptr`).  Float,
time and text-decodable kinds are not modelled: no verified claim depends
on their conversion rules. -/
inductive GoType : Type where
  | string : GoType
  | int (width : Nat) : GoType
  | uint (width : Nat) : GoType
  | boolean : GoType
  | strukt (fields : List GoField) : GoType
  | ptr (elem : GoType) : GoType
  | unhandled (name : String) : GoType

/-- A single declared field of a Go struct: its name, its raw tag string,
whether it is anonymous (embedded), and its type. -/
inductive GoField : Type where
  | mk (name : String) (tag : String) (anonymous : Bool) (type : GoType) : GoField
end

def GoField.name : GoField → String
  | .mk n _ _ _ => n

def GoField.tag : GoField → String
  | .mk _ t _ _ => t

def GoField.anonymous : GoField → Bool
  | .mk _ _ a _ => a

def GoField.type : GoField → GoType
  | .mk _ _ _ t => t

/-- The metadata extracted from struct fields; embeds `FieldMetadata` of
`pkg/utils/fields/struct_metadata.go`.  `tag` keeps the raw struct tag
(the `key:"value"` regex parse into the `Tags` map is orthogonal to every
verified claim and is not modelled); `anonymous` is the ancestor chain of
embedded struct names leading to the field. -/
structure FieldMetadata where
  type : GoType
  tag : String
  anonymous : List String

/-- The name → descriptor table, as an association list with the insertion
order of the Go loop (the Go map only supports lookups after build, so an
association list with unique keys is an adequate embedding). -/
abbrev Table := List (String × FieldMetadata)

mutual
/-- Embeds `processType` of `pkg/utils/fields/struct_metadata.go`:
dereference a pointer type once, require a struct (otherwise panic, which
is modelled as `Except.error` carrying the panic message), then fold over
the declared fields. -/
def processType (t : GoType) (tbl : Table) (chain : List String) : Except String Table :=
  match t with
  | .ptr (.strukt fields) => processFields fields tbl chain
  | .strukt fields => processFields fields tbl chain
  | _ => .error "Type must be a struct or a pointer to a struct."

/-- The field loop of `processType`: an anonymous field is recursed into
with its name appended to the ancestor chain; a named field whose name is
already present in the table panics with the message naming the ambiguous
field; otherwise its metadata is inserted. -/
def processFields (fields : List GoField) (tbl : Table) (chain : List String) :
    Except String Table :=
  match fields with
  | [] => .ok tbl
  | .mk fname ftag fanon ftype :: rest =>
    if fanon then
      match processType ftype tbl (chain ++ [fname]) with
      | .error e => .error e
      | .ok tbl' => processFields rest tbl' chain
    else if (tbl.lookup fname).isSome then
      .error ("field " ++ fname ++ " is ambiguous")
    else
      processFields rest (tbl ++ [(fname, ⟨ftype, ftag, chain⟩)]) chain
end

/-- Embeds `StructMetadata` of `pkg/utils/fields/struct_metadata.go` for one
type: build the flattened table starting from an empty map and an empty
ancestor chain.  (The memoizing cache around it only shares the resulting
read-only table; it does not change the table computed for a type.) -/
def StructMetadata (t : GoType) : Except String Table :=
  processType t [] []

mutual
/-- Spec-side flattening (§4.1 of the spec): the name → descriptor entries
contributed by a type, in declaration order, with the ancestor chain of
anonymous names recorded in each descriptor — written without the
duplicate-name check so it can be compared with `processType`.  `none`
when the type (after one pointer dereference) is not a struct. -/
def flatEntries (t : GoType) (chain : List String) : Option Table :=
  match t with
  | .ptr (.strukt fields) => flatEntriesFields fields chain
  | .strukt fields => flatEntriesFields fields chain
  | _ => none

/-- The per-field part of `flatEntries`. -/
def flatEntriesFields (fields : List GoField) (chain : List String) : Option Table :=
  match fields with
  | [] => some []
  | .mk fname ftag fanon ftype :: rest =>
    if fanon then
      match flatEntries ftype (chain ++ [fname]) with
      | none => none
      | some es =>
        match flatEntriesFields rest chain with
        | none => none
        | some es' => some (es ++ es')
    else
      match flatEntriesFields rest chain with
      | none => none
      | some es' => some ((fname, ⟨ftype, ftag, chain⟩) :: es')
end

mutual
/-- Spec-side flattened leaf names: the names of the non-anonymous fields
reachable through any level of embedding, in declaration order.  The name
of an anonymous field itself is never collected. -/
def flattenNames (t : GoType) : Option (List String) :=
  match t with
  | .ptr (.strukt fields) => flattenNamesFields fields
  | .strukt fields => flattenNamesFields fields
  | _ => none

/-- The per-field part of `flattenNames`. -/
def flattenNamesFields (fields : List GoField) : Option (List String) :=
  match fields with
  | [] => some []
  | .mk fname _ fanon ftype :: rest =>
    if fanon then
      match flattenNames ftype with
      | none => none
      | some ns =>
        match flattenNamesFields rest with
        | none => none
        | some ns' => some (ns ++ ns')
    else
      match flattenNamesFields rest with
      | none => none
      | some ns' => some (fname :: ns')
end

/-- `canInsertAll tbl es` holds when every entry of `es` can be inserted
into the table in order without hitting the duplicate-name panic: each key
must be absent from the table extended with all entries before it. -/
def canInsertAll (tbl : Table) : Table → Bool
  | [] => true
  | (k, m) :: es => (tbl.lookup k).isNone && canInsertAll (tbl ++ [(k, m)]) es

/-- Fixture mirroring `testDeepEmbeddedStruct` of
`pkg/structs/assign_test.go`. -/
def testDeepEmbeddedStruct : GoType :=
  .strukt [.mk "DeepEmbeddedValue" "" false (.ptr .string)]

/-- Fixture mirroring `testEmbeddedStruct` of `pkg/structs/assign_test.go`
(an anonymous Go field is named after its type). -/
def testEmbeddedStruct : GoType :=
  .strukt [.mk "testDeepEmbeddedStruct" "" true testDeepEmbeddedStruct,
    .mk "EmbeddedValue" "" false .string]

/-- Fixture: the embedding-relevant prefix of `testStruct` of
`pkg/structs/assign_test.go`. -/
def testStructEmb : GoType :=
  .strukt [.mk "testEmbeddedStruct" "" true testEmbeddedStruct,
    .mk "StringValue" "" false .string]

/-- The flattened metadata table of `testStructEmb`. -/
def testStructEmbTable : Table :=
  [("DeepEmbeddedValue", ⟨.ptr .string, "", ["testEmbeddedStruct",
      "testDeepEmbeddedStruct"]⟩),
   ("EmbeddedValue", ⟨.string, "", ["testEmbeddedStruct"]⟩),
   ("StringValue", ⟨.string, "", []⟩)]

/-- Fixture: a struct type with two embedded sub-structs that both declare
a field named `Value`. -/
def conflictingStruct : GoType :=
  .strukt [.mk "EmbA" "" true (.strukt [.mk "Value" "" false .string]),
    .mk "EmbB" "" true (.strukt [.mk "Value" "" false (.int 8)])]

/-- Decimal digit value of a character, `none` for a non-digit. -/
def digitVal (c : Char) : Option Nat :=
  if '0' ≤ c ∧ c ≤ '9' then some (c.toNat - '0'.toNat) else none

/-- Accumulating base-10 parser over a character list: fails on the first
non-digit character. -/
def parseNatCore : List Char → Nat → Option Nat
  | [], acc => some acc
  | c :: cs, acc =>
    match digitVal c with
    | some d => parseNatCore cs (acc * 10 + d)
    | none => none

/-- Base-10 parse of a non-empty all-digit character list. -/
def parseNatDigits : List Char → Option Nat
  | [] => none
  | cs => parseNatCore cs 0

/-- Base-10 parse with an optional leading sign, as in the spec's
`parse base-10 with sign` conversion rule for signed integers. -/
def parseIntChars : List Char → Option Int
  | [] => none
  | c :: rest =>
    if c = '+' then (parseNatDigits rest).map (fun n : Nat => (n : Int))
    else if c = '-' then (parseNatDigits rest).map (fun n : Nat => -(n : Int))
    else (parseNatDigits (c :: rest)).map (fun n : Nat => (n : Int))

/-- Value of a little-endian base-10 digit list; used to specify
`natDigitsCore`. -/
def lval : List Nat → Nat
  | [] => 0
  | d :: ds => d + 10 * lval ds

/-- Little-endian base-10 digits of `n` computed with explicit fuel so the
definition reduces inside the kernel; `natDigitsCore n n` is the digit
list of `n` (empty for `0`). -/
def natDigitsCore : Nat → Nat → List Nat
  | _, 0 => []
  | 0, _ + 1 => []
  | fuel + 1, n + 1 => ((n + 1) % 10) :: natDigitsCore fuel ((n + 1) / 10)

/-- The canonical base-10 text of a natural number, as a character list. -/
def natRepr (n : Nat) : List Char :=
  if n = 0 then ['0']
  else ((natDigitsCore n n).reverse).map (fun d => Char.ofNat (d + '0'.toNat))

/-- The canonical base-10 text of an integer (leading `-` when negative). -/
def intRepr (v : Int) : List Char :=
  if v < 0 then '-' :: natRepr v.natAbs else natRepr v.natAbs

/-- The canonical base-10 text of a natural number, as a string. -/
def natText (n : Nat) : String :=
  ⟨natRepr n⟩

/-- The canonical base-10 text of an integer, as a string. -/
def intText (v : Int) : String :=
  ⟨intRepr v⟩

/-- The values the assignment engine can write into a field.  A Go pointer
value is `vptr`: `vptr none` is the nil pointer, `vptr (some v)` points at
the converted value `v`. -/
inductive GoVal : Type where
  | vstr (s : String)
  | vint (v : Int)
  | vuint (v : Nat)
  | vbool (b : Bool)
  | vptr (p : Option GoVal)

/-- A struct instance: the current value of each field, by name. -/
abbrev Inst := List (String × GoVal)

/-- Write `v` into field `name`, leaving every other field unchanged (the
functional rendering of Go's in-place single-field write). -/
def setField (inst : Inst) (name : String) (v : GoVal) : Inst :=
  (name, v) :: inst.filter (fun p => p.1 ≠ name)

/-- Modelled from the spec: the kind-dispatch conversion table of §4.3 of
the specification.  The Go source of the assignment engine
(`pkg/structs`/`pkg/utils/assign`, `AssignToField`) is not among the
provided sources — only its test suite is — so this follows the spec's
conversion rules: strings are copied verbatim; signed integers parse
base-10 with sign and must fit in `W` bits; unsigned integers parse
base-10 non-negative only and must fit in `W` bits; booleans accept
exactly the literal tokens `true`, `false`, `1`, `0`; a pointer converts
for the pointee type and on success stores the address of the converted
value (`vptr (some v)`); anything else is a recoverable unsupported-type
error.  The float, time-instant, text-decodable and JSON-composite rows
of the table are not modelled (no verified claim depends on them); the
JSON-composite row is kept as an always-error placeholder so the dispatch
stays total over `GoType`. -/
def convert : GoType → String → Except String GoVal
  | .string, raw => .ok (.vstr raw)
  | .int w, raw =>
    match parseIntChars raw.data with
    | none => .error ("strconv.ParseInt: parsing " ++ raw ++ ": invalid syntax")
    | some v =>
      if -(2 ^ (w - 1) : Int) ≤ v ∧ v < (2 ^ (w - 1) : Int) then .ok (.vint v)
      else .error ("strconv.ParseInt: parsing " ++ raw ++ ": value out of range")
  | .uint w, raw =>
    match parseNatDigits raw.data with
    | none => .error ("strconv.ParseUint: parsing " ++ raw ++ ": invalid syntax")
    | some n =>
      if n < 2 ^ w then .ok (.vuint n)
      else .error ("strconv.ParseUint: parsing " ++ raw ++ ": value out of range")
  | .boolean, raw =>
    if raw = "true" ∨ raw = "1" then .ok (.vbool true)
    else if raw = "false" ∨ raw = "0" then .ok (.vbool false)
    else .error ("strconv.ParseBool: parsing " ++ raw ++ ": invalid syntax")
  | .ptr inner, raw =>
    match convert inner raw with
    | .ok v => .ok (.vptr (some v))
    | .error e => .error e
  | .strukt _, _ => .error "json unmarshal error: composite decoding is not modelled"
  | .unhandled n, _ => .error ("unsupported field type " ++ n)

/-- The outcome of one assignment: `result inst err` is a normal return
carrying the (possibly updated) struct and an optional recoverable error;
`fatal` is a Go panic. -/
inductive AssignOutcome : Type where
  | result (inst : Inst) (err : Option String)
  | fatal (msg : String)

/-- Modelled from the spec: `AssignToField` of the assignment engine
(§4.3), whose Go source is not among the provided sources.  The target is
`inst` together with its type's metadata table `tbl`; a field name absent
from the table is a fatal abort (panic) naming the unknown field — the
message follows the observed test expectation `no field 'X' in struct` —
while a conversion failure is a recoverable error naming the field and
the raw value and leaves the instance untouched.  (The further fatal
precondition that the target be a non-nil pointer to a struct is a Go
reflection check on the caller's argument and has no counterpart for this
embedding, whose target is a struct instance by construction.) -/
def AssignToField (tbl : Table) (inst : Inst) (fieldName : String) (rawValue : String) :
    AssignOutcome :=
  match tbl.lookup fieldName with
  | none => .fatal ("no field " ++ fieldName ++ " in struct")
  | some m =>
    match convert m.type rawValue with
    | .ok v => .result (setField inst fieldName v) none
    | .error e =>
      .result inst (some ("failed to set field " ++ fieldName ++ " with value " ++
        rawValue ++ " (" ++ e ++ ")"))

/-- ASCII lower-casing of one character. -/
def toLowerChar (c : Char) : Char :=
  if 'A' ≤ c ∧ c ≤ 'Z' then Char.ofNat (c.toNat + 32) else c

/-- ASCII lower-casing of a string; embeds `strings.ToLower` for the ASCII
keys the binder compares. -/
def lowerString (s : String) : String :=
  ⟨s.data.map toLowerChar⟩

/-- Embeds `strings.EqualFold` for ASCII strings: equality after case
folding. -/
def eqFold (a b : String) : Bool :=
  lowerString a = lowerString b

/-- Embeds `decodeJSONBodyParameters` of `pkg/http/parameters/decode.go`:
when (and only when) the request's Content-Type header equals
`application/json` under case-insensitive comparison, the body is decoded
into the parameter struct, wrapping any decode failure; otherwise the body
is not read at all and no error is returned.  `jsonDecode` stands for
`encoding/json`'s decoder (with unknown fields disallowed) applied to the
body, and `contentType` is the value of `request.Header.Get(ContentType)`
(the empty string when the header is absent). -/
def decodeJSONBodyParameters (jsonDecode : String → Except String Inst)
    (contentType : String) (body : String) (inst : Inst) : Except String Inst :=
  if eqFold contentType "application/json" then
    match jsonDecode body with
    | .ok inst' => .ok inst'
    | .error e => .error ("failed to decode json body (" ++ e ++ ")")
  else
    .ok inst

/-- The outcome of a multi-parameter decode pass: a normal return with the
populated struct, a decode error, or a propagated panic of the assignment
engine. -/
inductive DecodeOutcome : Type where
  | ok (inst : Inst)
  | err (msg : String)
  | fatal (msg : String)

/-- Embeds `decodeQueryParameters` of `pkg/http/parameters/decode.go`: for
each query parameter in the request, lower-case its name and look it up in
the tag's lookup-key map; unmatched parameters are skipped; a matched
parameter must carry exactly one value, otherwise the pass fails; the
single value is handed to the assignment engine. -/
def decodeQueryParameters (tbl : Table) (lookupKeyToFieldName : List (String × String))
    (query : List (String × List String)) (inst : Inst) : DecodeOutcome :=
  match query with
  | [] => .ok inst
  | (qname, qvals) :: rest =>
    match lookupKeyToFieldName.lookup (lowerString qname) with
    | none => decodeQueryParameters tbl lookupKeyToFieldName rest inst
    | some fieldName =>
      match qvals with
      | [v] =>
        match AssignToField tbl inst fieldName v with
        | .fatal msg => .fatal msg
        | .result inst' none => decodeQueryParameters tbl lookupKeyToFieldName rest inst'
        | .result _ (some e) =>
          .err ("failed to set value for query parameter " ++ qname ++ " (" ++ e ++ ")")
      | _ => .err ("expecting one value for query parameter " ++ qname)

/-- Embeds `decodeHeaderParameters` of `pkg/http/parameters/decode.go`:
identical to the query pass but over the request's headers. -/
def decodeHeaderParameters (tbl : Table) (lookupKeyToFieldName : List (String × String))
    (headers : List (String × List String)) (inst : Inst) : DecodeOutcome :=
  match headers with
  | [] => .ok inst
  | (hname, hvals) :: rest =>
    match lookupKeyToFieldName.lookup (lowerString hname) with
    | none => decodeHeaderParameters tbl lookupKeyToFieldName rest inst
    | some fieldName =>
      match hvals with
      | [v] =>
        match AssignToField tbl inst fieldName v with
        | .fatal msg => .fatal msg
        | .result inst' none => decodeHeaderParameters tbl lookupKeyToFieldName rest inst'
        | .result _ (some e) =>
          .err ("failed to set value for header parameter " ++ hname ++ " (" ++ e ++ ")")
      | _ => .err ("expecting one value for header parameter " ++ hname)

theorem lookup_append (l₁ l₂ : Table) (k : String) :
    (l₁ ++ l₂).lookup k = ((l₁.lookup k).or (l₂.lookup k)) := by
  induction l₁ with
  | nil => simp
  | cons p l ih =>
    obtain ⟨a, b⟩ := p
    by_cases h : k = a
    · simp [List.lookup, h]
    · have hb : (k == a) = false := beq_eq_false_iff_ne.mpr h
      simp [List.lookup, hb, ih]

theorem canInsertAll_append (tbl es₁ es₂ : Table) :
    canInsertAll tbl (es₁ ++ es₂) =
      (canInsertAll tbl es₁ && canInsertAll (tbl ++ es₁) es₂) := by
  induction es₁ generalizing tbl with
  | nil => simp [canInsertAll]
  | cons p es ih =>
    obtain ⟨k, m⟩ := p
    simp [canInsertAll, ih (tbl ++ [(k, m)]), List.append_assoc, Bool.and_assoc]

mutual
/-- Refinement, success direction: a table returned by `processType` is
exactly the spec-side flattened entries appended to the incoming table,
and every flattened name was fresh on insertion; in particular the
extractor never returns a table in which a duplicated name was silently
resolved. -/
theorem processType_ok (t : GoType) (tbl : Table) (chain : List String) (out : Table)
    (h : processType t tbl chain = .ok out) :
    ∃ es, flatEntries t chain = some es ∧ canInsertAll tbl es = true ∧ out = tbl ++ es := by
  match t with
  | .ptr (.strukt fields) =>
    rw [processType] at h
    rw [flatEntries]
    exact processFields_ok fields tbl chain out h
  | .strukt fields =>
    rw [processType] at h
    rw [flatEntries]
    exact processFields_ok fields tbl chain out h
  | .string => exact absurd h (by simp [processType])
  | .int w => exact absurd h (by simp [processType])
  | .uint w => exact absurd h (by simp [processType])
  | .boolean => exact absurd h (by simp [processType])
  | .ptr .string => exact absurd h (by simp [processType])
  | .ptr (.int w) => exact absurd h (by simp [processType])
  | .ptr (.uint w) => exact absurd h (by simp [processType])
  | .ptr .boolean => exact absurd h (by simp [processType])
  | .ptr (.ptr e) => exact absurd h (by simp [processType])
  | .ptr (.unhandled n) => exact absurd h (by simp [processType])
  | .unhandled n => exact absurd h (by simp [processType])

/-- The per-field part of `processType_ok`. -/
theorem processFields_ok (fields : List GoField) (tbl : Table) (chain : List String)
    (out : Table) (h : processFields fields tbl chain = .ok out) :
    ∃ es, flatEntriesFields fields chain = some es ∧ canInsertAll tbl es = true ∧
      out = tbl ++ es := by
  match fields with
  | [] =>
    rw [processFields] at h
    injection h with h
    exact ⟨[], by rw [flatEntriesFields], by rw [canInsertAll], by simp [h]⟩
  | .mk fname ftag fanon ftype :: rest =>
    rw [processFields] at h
    rw [flatEntriesFields]
    cases fanon with
    | true =>
      simp only [if_pos rfl] at h
      cases hpt : processType ftype tbl (chain ++ [fname]) with
      | error e => rw [hpt] at h; exact absurd h (by simp)
      | ok tbl' =>
        rw [hpt] at h
        simp only [] at h
        obtain ⟨es₁, hfe₁, hci₁, htbl'⟩ := processType_ok ftype tbl (chain ++ [fname]) tbl' hpt
        obtain ⟨es₂, hfe₂, hci₂, hout⟩ := processFields_ok rest tbl' chain out h
        refine ⟨es₁ ++ es₂, ?_, ?_, ?_⟩
        · simp [hfe₁, hfe₂]
        · rw [canInsertAll_append, hci₁, Bool.true_and, ← htbl']
          exact hci₂
        · rw [hout, htbl', List.append_assoc]
    | false =>
      simp only [Bool.false_eq_true, if_neg, not_false_iff] at h
      cases hlk : (tbl.lookup fname) with
      | some m =>
        rw [hlk] at h
        exact absurd h (by simp)
      | none =>
        rw [hlk] at h
        simp only [Option.isSome_none, Bool.false_eq_true, if_neg, not_false_iff] at h
        obtain ⟨es₂, hfe₂, hci₂, hout⟩ :=
          processFields_ok rest (tbl ++ [(fname, FieldMetadata.mk ftype ftag chain)]) chain out h
        refine ⟨(fname, FieldMetadata.mk ftype ftag chain) :: es₂, ?_, ?_, ?_⟩
        · simp only [Bool.false_eq_true, if_neg, not_false_iff, hfe₂]
        · rw [canInsertAll, hlk, Bool.and_eq_true]
          exact ⟨rfl, hci₂⟩
        · rw [hout, List.append_assoc]
          rfl
end

mutual
/-- The spec-side flattened names are the keys of the spec-side flattened
entries, for any ancestor chain (the chain never influences the names). -/
theorem flattenNames_eq (t : GoType) (chain : List String) :
    flattenNames t = (flatEntries t chain).map (List.map Prod.fst) := by
  match t with
  | .ptr (.strukt fields) =>
    rw [flattenNames, flatEntries]
    exact flattenNamesFields_eq fields chain
  | .strukt fields =>
    rw [flattenNames, flatEntries]
    exact flattenNamesFields_eq fields chain
  | .string => rfl
  | .int w => rfl
  | .uint w => rfl
  | .boolean => rfl
  | .ptr .string => rfl
  | .ptr (.int w) => rfl
  | .ptr (.uint w) => rfl
  | .ptr .boolean => rfl
  | .ptr (.ptr e) => rfl
  | .ptr (.unhandled n) => rfl
  | .unhandled n => rfl

/-- The per-field part of `flattenNames_eq`. -/
theorem flattenNamesFields_eq (fields : List GoField) (chain : List String) :
    flattenNamesFields fields = (flatEntriesFields fields chain).map (List.map Prod.fst) := by
  match fields with
  | [] => simp [flattenNamesFields, flatEntriesFields]
  | .mk fname ftag fanon ftype :: rest =>
    rw [flattenNamesFields, flatEntriesFields]
    cases fanon with
    | true =>
      simp only [if_pos rfl]
      rw [flattenNames_eq ftype (chain ++ [fname])]
      cases hfe : flatEntries ftype (chain ++ [fname]) with
      | none => simp
      | some es =>
        rw [flattenNamesFields_eq rest chain]
        cases hfr : flatEntriesFields rest chain with
        | none => simp
        | some es' => simp
    | false =>
      simp only [Bool.false_eq_true, if_neg, not_false_iff]
      rw [flattenNamesFields_eq rest chain]
      cases hfr : flatEntriesFields rest chain with
      | none => simp
      | some es' => simp
end

/-- Successful insertion of a block of entries forces their keys to be
pairwise distinct and absent from the incoming table. -/
theorem canInsertAll_nodup (es : Table) :
    ∀ tbl : Table, canInsertAll tbl es = true →
      (es.map Prod.fst).Nodup ∧ ∀ k ∈ es.map Prod.fst, tbl.lookup k = none := by
  induction es with
  | nil => intro tbl _; simp
  | cons p es ih =>
    intro tbl h
    obtain ⟨k, m⟩ := p
    rw [canInsertAll, Bool.and_eq_true] at h
    obtain ⟨hk, hrest⟩ := h
    obtain ⟨hnodup, hfresh⟩ := ih (tbl ++ [(k, m)]) hrest
    have hsplit : ∀ k' ∈ es.map Prod.fst, tbl.lookup k' = none ∧ k' ≠ k := by
      intro k' hk'
      have := hfresh k' hk'
      rw [lookup_append] at this
      rcases ho : tbl.lookup k' with _ | v
      · constructor
        · rfl
        · intro hkk
          rw [ho, Option.none_or] at this
          simp [List.lookup, hkk] at this
      · rw [ho] at this
        simp at this
    constructor
    · refine List.nodup_cons.mpr ⟨?_, hnodup⟩
      intro hmem
      exact (hsplit k hmem).2 rfl
    · intro k' hk'
      rcases List.mem_cons.mp hk' with hEq | hmem
      · subst hEq
        exact Option.isNone_iff_eq_none.mp hk
      · exact (hsplit k' hmem).1

theorem lookup_some_mem (tbl : Table) (k : String) (m : FieldMetadata)
    (h : tbl.lookup k = some m) : k ∈ tbl.map Prod.fst := by
  induction tbl with
  | nil => simp [List.lookup] at h
  | cons p rest ih =>
    obtain ⟨a, b⟩ := p
    by_cases hk : k = a
    · simp [hk]
    · have hb : (k == a) = false := beq_eq_false_iff_ne.mpr hk
      rw [List.lookup, hb] at h
      simpa using Or.inr (ih h)

mutual
/-- When every embedded type is structurally valid (the spec-side
flattening is defined), any panic of `processType` carries a message of
the form `field k is ambiguous` for a name `k` that indeed occurs at least
twice among the accumulated and flattened field names. -/
theorem processType_error (t : GoType) (tbl : Table) (chain : List String)
    (es : Table) (e : String) (hfe : flatEntries t chain = some es)
    (h : processType t tbl chain = .error e) :
    ∃ k, e = "field " ++ k ++ " is ambiguous" ∧
      2 ≤ (tbl.map Prod.fst ++ es.map Prod.fst).count k := by
  match t with
  | .ptr (.strukt fields) =>
    rw [processType] at h
    rw [flatEntries] at hfe
    exact processFields_error fields tbl chain es e hfe h
  | .strukt fields =>
    rw [processType] at h
    rw [flatEntries] at hfe
    exact processFields_error fields tbl chain es e hfe h
  | .string => exact absurd hfe (by simp [flatEntries])
  | .int w => exact absurd hfe (by simp [flatEntries])
  | .uint w => exact absurd hfe (by simp [flatEntries])
  | .boolean => exact absurd hfe (by simp [flatEntries])
  | .ptr .string => exact absurd hfe (by simp [flatEntries])
  | .ptr (.int w) => exact absurd hfe (by simp [flatEntries])
  | .ptr (.uint w) => exact absurd hfe (by simp [flatEntries])
  | .ptr .boolean => exact absurd hfe (by simp [flatEntries])
  | .ptr (.ptr el) => exact absurd hfe (by simp [flatEntries])
  | .ptr (.unhandled n) => exact absurd hfe (by simp [flatEntries])
  | .unhandled n => exact absurd hfe (by simp [flatEntries])

/-- The per-field part of `processType_error`. -/
theorem processFields_error (fields : List GoField) (tbl : Table) (chain : List String)
    (es : Table) (e : String) (hfe : flatEntriesFields fields chain = some es)
    (h : processFields fields tbl chain = .error e) :
    ∃ k, e = "field " ++ k ++ " is ambiguous" ∧
      2 ≤ (tbl.map Prod.fst ++ es.map Prod.fst).count k := by
  match fields with
  | [] =>
    rw [processFields] at h
    exact absurd h (by simp)
  | .mk fname ftag fanon ftype :: rest =>
    rw [processFields] at h
    rw [flatEntriesFields] at hfe
    cases fanon with
    | true =>
      simp only [eq_self_iff_true, if_true] at h hfe
      cases hfe₁ : flatEntries ftype (chain ++ [fname]) with
      | none => rw [hfe₁] at hfe; exact absurd hfe (by simp)
      | some es₁ =>
        rw [hfe₁] at hfe
        cases hfe₂ : flatEntriesFields rest chain with
        | none => rw [hfe₂] at hfe; exact absurd hfe (by simp)
        | some es₂ =>
          rw [hfe₂] at hfe
          simp only [Option.some.injEq] at hfe
          subst hfe
          cases hpt : processType ftype tbl (chain ++ [fname]) with
          | error e' =>
            rw [hpt] at h
            simp only [Except.error.injEq] at h
            subst h
            obtain ⟨k, hk, hcount⟩ :=
              processType_error ftype tbl (chain ++ [fname]) es₁ e' hfe₁ hpt
            refine ⟨k, hk, ?_⟩
            calc 2 ≤ (tbl.map Prod.fst ++ es₁.map Prod.fst).count k := hcount
              _ ≤ (tbl.map Prod.fst ++ (es₁ ++ es₂).map Prod.fst).count k := by
                  simp [List.count_append]
          | ok tbl' =>
            rw [hpt] at h
            simp only [] at h
            obtain ⟨es₁', hfe₁', hci₁, htbl'⟩ :=
              processType_ok ftype tbl (chain ++ [fname]) tbl' hpt
            rw [hfe₁] at hfe₁'
            injection hfe₁' with hes₁
            subst hes₁
            obtain ⟨k, hk, hcount⟩ := processFields_error rest tbl' chain es₂ e hfe₂ h
            refine ⟨k, hk, ?_⟩
            rw [htbl'] at hcount
            calc 2 ≤ ((tbl ++ es₁).map Prod.fst ++ es₂.map Prod.fst).count k := hcount
              _ = (tbl.map Prod.fst ++ (es₁ ++ es₂).map Prod.fst).count k := by
                  simp [List.count_append]
    | false =>
      simp only [Bool.false_eq_true, if_neg, not_false_iff] at h hfe
      cases hfe₂ : flatEntriesFields rest chain with
      | none => rw [hfe₂] at hfe; exact absurd hfe (by simp)
      | some es₂ =>
        rw [hfe₂] at hfe
        simp only [Option.some.injEq] at hfe
        subst hfe
        cases hlk : (tbl.lookup fname) with
        | some m =>
          rw [hlk] at h
          simp only [Option.isSome_some, if_pos, Except.error.injEq] at h
          subst h
          refine ⟨fname, rfl, ?_⟩
          have h₁ : 1 ≤ (tbl.map Prod.fst).count fname :=
            List.one_le_count_iff.mpr (lookup_some_mem tbl fname m hlk)
          have h₂ : 1 ≤ (((fname, FieldMetadata.mk ftype ftag chain) :: es₂).map
              Prod.fst).count fname := by
            simp [List.count_cons]
          calc 2 ≤ (tbl.map Prod.fst).count fname +
                (((fname, FieldMetadata.mk ftype ftag chain) :: es₂).map Prod.fst).count
                  fname := by omega
            _ = _ := (List.count_append _ _ _).symm
        | none =>
          rw [hlk] at h
          simp only [Option.isSome_none, Bool.false_eq_true, if_neg, not_false_iff] at h
          obtain ⟨k, hk, hcount⟩ := processFields_error rest
            (tbl ++ [(fname, FieldMetadata.mk ftype ftag chain)]) chain es₂ e hfe₂ h
          refine ⟨k, hk, ?_⟩
          calc 2 ≤ ((tbl ++ [(fname, FieldMetadata.mk ftype ftag chain)]).map Prod.fst ++
                es₂.map Prod.fst).count k := hcount
            _ = (tbl.map Prod.fst ++ (((fname, FieldMetadata.mk ftype ftag chain) ::
                es₂).map Prod.fst)).count k := by
                simp [List.count_append, List.count_cons]
end

/-- In a table with pairwise-distinct keys, membership determines lookup. -/
theorem lookup_of_mem_nodup (es : Table) (x : String) (m : FieldMetadata)
    (hnd : (es.map Prod.fst).Nodup) (hmem : (x, m) ∈ es) :
    es.lookup x = some m := by
  induction es with
  | nil => cases hmem
  | cons p rest ih =>
    obtain ⟨k, m'⟩ := p
    rcases List.mem_cons.mp hmem with hEq | hmem'
    · injection hEq with h1 h2
      subst h1
      subst h2
      simp [List.lookup]
    · have hx : x ∈ rest.map Prod.fst := List.mem_map.mpr ⟨(x, m), hmem', rfl⟩
      have hk : k ∉ rest.map Prod.fst := (List.nodup_cons.mp hnd).1
      have hne : (x == k) = false := beq_eq_false_iff_ne.mpr fun hxk => hk (hxk ▸ hx)
      rw [List.lookup, hne]
      exact ih (List.nodup_cons.mp hnd).2 hmem'

theorem lval_natDigitsCore (fuel : Nat) :
    ∀ n, n ≤ fuel → lval (natDigitsCore fuel n) = n := by
  induction fuel with
  | zero =>
    intro n hn
    interval_cases n
    rfl
  | succ fuel ih =>
    intro n hn
    match n with
    | 0 => rfl
    | m + 1 =>
      rw [natDigitsCore, lval]
      have hdiv : (m + 1) / 10 ≤ fuel := by
        have := Nat.div_lt_self (Nat.succ_pos m) (by norm_num : 1 < 10)
        omega
      rw [ih ((m + 1) / 10) hdiv]
      omega

theorem natDigitsCore_lt (fuel : Nat) :
    ∀ n d, d ∈ natDigitsCore fuel n → d < 10 := by
  induction fuel with
  | zero =>
    intro n d hd
    match n with
    | 0 => simp [natDigitsCore] at hd
    | m + 1 => simp [natDigitsCore] at hd
  | succ fuel ih =>
    intro n d hd
    match n with
    | 0 => simp [natDigitsCore] at hd
    | m + 1 =>
      rw [natDigitsCore] at hd
      rcases List.mem_cons.mp hd with h | h
      · subst h
        exact Nat.mod_lt _ (by norm_num)
      · exact ih _ d h

theorem digitVal_digitChar (d : Nat) (hd : d < 10) :
    digitVal (Char.ofNat (d + Char.toNat '0')) = some d := by
  interval_cases d <;> decide

theorem parseNatCore_digits (ds : List Nat) :
    ∀ acc : Nat, (∀ d ∈ ds, d < 10) →
      parseNatCore (ds.map (fun d => Char.ofNat (d + Char.toNat '0'))) acc =
        some (ds.foldl (fun a d => a * 10 + d) acc) := by
  induction ds with
  | nil => intro acc _; rfl
  | cons d ds ih =>
    intro acc hds
    rw [List.map_cons, parseNatCore, digitVal_digitChar d (hds d (by simp)),
      List.foldl_cons]
    exact ih (acc * 10 + d) fun x hx => hds x (by simp [hx])

theorem foldl_reverse_lval (ds : List Nat) :
    ∀ acc : Nat, (ds.reverse).foldl (fun a d => a * 10 + d) acc =
      acc * 10 ^ ds.length + lval ds := by
  induction ds with
  | nil => intro acc; simp [lval]
  | cons d ds ih =>
    intro acc
    rw [List.reverse_cons, List.foldl_append, ih acc, lval]
    simp only [List.foldl_cons, List.foldl_nil, List.length_cons, pow_succ]
    ring

theorem parseNatDigits_ne_nil (cs : List Char) (h : cs ≠ []) :
    parseNatDigits cs = parseNatCore cs 0 := by
  match cs with
  | [] => exact absurd rfl h
  | c :: rest => rfl

/-- Round trip: the canonical base-10 text of a natural number parses back
to that number. -/
theorem parseNatDigits_natRepr (n : Nat) : parseNatDigits (natRepr n) = some n := by
  by_cases h0 : n = 0
  · subst h0
    rfl
  · rw [natRepr, if_neg h0]
    obtain ⟨m, hm⟩ : ∃ m, n = m + 1 := ⟨n - 1, by omega⟩
    subst hm
    have hne : ((natDigitsCore (m + 1) (m + 1)).reverse.map
        (fun d => Char.ofNat (d + Char.toNat '0'))) ≠ [] := by
      rw [natDigitsCore]
      simp
    rw [parseNatDigits_ne_nil _ hne,
      parseNatCore_digits (natDigitsCore (m + 1) (m + 1)).reverse 0
        (fun d hd => natDigitsCore_lt (m + 1) (m + 1) d (List.mem_reverse.mp hd)),
      foldl_reverse_lval, lval_natDigitsCore (m + 1) (m + 1) le_rfl]
    simp

theorem natRepr_ne_nil (n : Nat) : natRepr n ≠ [] := by
  by_cases h0 : n = 0
  · subst h0
    decide
  · rw [natRepr, if_neg h0]
    obtain ⟨m, hm⟩ : ∃ m, n = m + 1 := ⟨n - 1, by omega⟩
    subst hm
    rw [natDigitsCore]
    simp

theorem mem_natRepr_not_sign (n : Nat) (c : Char) (hc : c ∈ natRepr n) :
    c ≠ '+' ∧ c ≠ '-' := by
  rw [natRepr] at hc
  by_cases h0 : n = 0
  · rw [if_pos h0] at hc
    simp only [List.mem_singleton] at hc
    subst hc
    exact ⟨by decide, by decide⟩
  · rw [if_neg h0] at hc
    obtain ⟨d, hd, hcd⟩ := List.mem_map.mp hc
    have hd10 : d < 10 := natDigitsCore_lt n n d (List.mem_reverse.mp hd)
    subst hcd
    interval_cases d <;> exact ⟨by decide, by decide⟩

/-- Round trip: the canonical base-10 text of an integer (sign included)
parses back to that integer. -/
theorem parseIntChars_intRepr (v : Int) : parseIntChars (intRepr v) = some v := by
  rw [intRepr]
  by_cases hv : v < 0
  · rw [if_pos hv, parseIntChars, if_neg (by decide : ¬('-' : Char) = '+'),
      if_pos rfl, parseNatDigits_natRepr]
    simp only [Option.map_some']
    congr 1
    omega
  · rw [if_neg hv]
    obtain ⟨c, cs, hcons⟩ := List.exists_cons_of_ne_nil (natRepr_ne_nil v.natAbs)
    have hsign := mem_natRepr_not_sign v.natAbs c (by rw [hcons]; simp)
    rw [hcons, parseIntChars, if_neg hsign.1, if_neg hsign.2, ← hcons,
      parseNatDigits_natRepr]
    simp only [Option.map_some']
    congr 1
    omega

theorem lookup_setField_self (inst : Inst) (name : String) (v : GoVal) :
    (setField inst name v).lookup name = some v := by
  simp [setField, List.lookup]

theorem flattenNamesFields_append (as bs : List GoField) :
    ∀ ns, flattenNamesFields (as ++ bs) = some ns →
      ∃ n₁ n₂, flattenNamesFields as = some n₁ ∧ flattenNamesFields bs = some n₂ ∧
        ns = n₁ ++ n₂ := by
  induction as with
  | nil =>
    intro ns h
    exact ⟨[], ns, by rw [flattenNamesFields], h, rfl⟩
  | cons f rest ih =>
    intro ns h
    cases f with
    | mk fname ftag fanon ftype =>
      rw [List.cons_append, flattenNamesFields] at h
      rw [flattenNamesFields]
      cases fanon with
      | true =>
        simp only [eq_self_iff_true, if_true] at h ⊢
        cases hft : flattenNames ftype with
        | none => rw [hft] at h; exact absurd h (by simp)
        | some m =>
          rw [hft] at h
          cases hrb : flattenNamesFields (rest ++ bs) with
          | none => rw [hrb] at h; exact absurd h (by simp)
          | some k =>
            rw [hrb] at h
            simp only [Option.some.injEq] at h
            obtain ⟨n₁, n₂, hr, hb, hk⟩ := ih k hrb
            rw [hr]
            exact ⟨m ++ n₁, n₂, rfl, hb, by rw [← h, hk, List.append_assoc]⟩
      | false =>
        simp only [Bool.false_eq_true, if_neg, not_false_iff] at h ⊢
        cases hrb : flattenNamesFields (rest ++ bs) with
        | none => rw [hrb] at h; exact absurd h (by simp)
        | some k =>
          rw [hrb] at h
          simp only [Option.some.injEq] at h
          obtain ⟨n₁, n₂, hr, hb, hk⟩ := ih k hrb
          rw [hr]
          exact ⟨fname :: n₁, n₂, rfl, hb, by rw [← h, hk]; rfl⟩

theorem lookup_pair_mem_snd (l : List (String × String)) (k v : String)
    (h : l.lookup k = some v) : v ∈ l.map Prod.snd := by
  induction l with
  | nil => simp [List.lookup] at h
  | cons p rest ih =>
    obtain ⟨a, b⟩ := p
    by_cases hk : k = a
    · subst hk
      rw [List.lookup, beq_self_eq_true] at h
      simp only [Option.some.injEq] at h
      simp [h]
    · have hb : (k == a) = false := beq_eq_false_iff_ne.mpr hk
      rw [List.lookup, hb] at h
      simpa using Or.inr (ih h)

theorem AssignToField_result_of_isSome (tbl : Table) (inst : Inst) (f raw : String)
    (h : (tbl.lookup f).isSome = true) :
    ∃ inst' err, AssignToField tbl inst f raw = .result inst' err := by
  cases hlk : tbl.lookup f with
  | none => rw [hlk] at h; simp at h
  | some m =>
    cases hc : convert m.type raw with
    | ok v =>
      refine ⟨setField inst f v, none, ?_⟩
      simp [AssignToField, hlk, hc]
    | error e =>
      refine ⟨inst, some ("failed to set field " ++ f ++ " with value " ++ raw ++
        " (" ++ e ++ ")"), ?_⟩
      simp [AssignToField, hlk, hc]

/-- C6: for every target struct and every field name not present in the
target type's metadata table, assignment aborts fatally (a panic,
modelled as `AssignOutcome.fatal`, not a returned error value) with a
message naming the unknown field. -/
theorem claim_C6_unknown_field_fatal (tbl : Table) (inst : Inst)
    (fieldName raw : String) (h : tbl.lookup fieldName = none) :
    AssignToField tbl inst fieldName raw =
      .fatal ("no field " ++ fieldName ++ " in struct") := by
  simp [AssignToField, h]

/-- Witness for C6 at the test scenario: assigning to `NonExistentField`
panics with a message naming that field. -/
theorem claim_C6_witness :
    AssignToField [] [] "NonExistentField" "some value" =
      .fatal ("no field NonExistentField in struct") :=
  claim_C6_unknown_field_fatal [] [] "NonExistentField" "some value" rfl

/-- C2: assignment to a boolean field accepts exactly the literal tokens
`true`, `false`, `1`, `0`: `true`/`1` store `true`, `false`/`0` store
`false`, and every other token yields a recoverable error (a returned
error, not a panic) that leaves the instance untouched. -/
theorem claim_C2_bool_tokens (tbl : Table) (inst : Inst) (f : String)
    (m : FieldMetadata) (hf : tbl.lookup f = some m) (hb : m.type = .boolean) :
    AssignToField tbl inst f "true" = .result (setField inst f (.vbool true)) none ∧
    AssignToField tbl inst f "1" = .result (setField inst f (.vbool true)) none ∧
    AssignToField tbl inst f "false" = .result (setField inst f (.vbool false)) none ∧
    AssignToField tbl inst f "0" = .result (setField inst f (.vbool false)) none ∧
    ∀ s : String, s ≠ "true" → s ≠ "false" → s ≠ "1" → s ≠ "0" →
      AssignToField tbl inst f s = .result inst
        (some ("failed to set field " ++ f ++ " with value " ++ s ++ " (" ++
          ("strconv.ParseBool: parsing " ++ s ++ ": invalid syntax") ++ ")")) := by
  refine ⟨?_, ?_, ?_, ?_, ?_⟩
  · simp only [AssignToField, hf, hb, convert]
    rw [if_pos (by decide)]
  · simp only [AssignToField, hf, hb, convert]
    rw [if_pos (by decide)]
  · simp only [AssignToField, hf, hb, convert]
    rw [if_neg (by decide), if_pos (by decide)]
  · simp only [AssignToField, hf, hb, convert]
    rw [if_neg (by decide), if_pos (by decide)]
  · intro s h1 h2 h3 h4
    have hc1 : ¬(s = "true" ∨ s = "1") := by
      rintro (h | h)
      · exact h1 h
      · exact h3 h
    have hc2 : ¬(s = "false" ∨ s = "0") := by
      rintro (h | h)
      · exact h2 h
      · exact h4 h
    simp only [AssignToField, hf, hb, convert, if_neg hc1, if_neg hc2]

/-- Witness for C2 on a concrete boolean field: the four accepted tokens
behave as claimed and the rejected tokens `2`, `TRUE` and `t` each return
a recoverable error. -/
theorem claim_C2_witness :
    (AssignToField [("BoolValue", ⟨GoType.boolean, "", []⟩)]
        [("BoolValue", GoVal.vbool false)] "BoolValue" "true" =
      .result (setField [("BoolValue", GoVal.vbool false)] "BoolValue"
        (.vbool true)) none) ∧
    (AssignToField [("BoolValue", ⟨GoType.boolean, "", []⟩)]
        [("BoolValue", GoVal.vbool false)] "BoolValue" "0" =
      .result (setField [("BoolValue", GoVal.vbool false)] "BoolValue"
        (.vbool false)) none) ∧
    (AssignToField [("BoolValue", ⟨GoType.boolean, "", []⟩)]
        [("BoolValue", GoVal.vbool false)] "BoolValue" "2" =
      .result [("BoolValue", GoVal.vbool false)]
        (some ("failed to set field BoolValue with value 2" ++
          " (strconv.ParseBool: parsing 2: invalid syntax)"))) ∧
    (AssignToField [("BoolValue", ⟨GoType.boolean, "", []⟩)]
        [("BoolValue", GoVal.vbool false)] "BoolValue" "TRUE" =
      .result [("BoolValue", GoVal.vbool false)]
        (some ("failed to set field BoolValue with value TRUE" ++
          " (strconv.ParseBool: parsing TRUE: invalid syntax)"))) ∧
    (AssignToField [("BoolValue", ⟨GoType.boolean, "", []⟩)]
        [("BoolValue", GoVal.vbool false)] "BoolValue" "t" =
      .result [("BoolValue", GoVal.vbool false)]
        (some ("failed to set field BoolValue with value t" ++
          " (strconv.ParseBool: parsing t: invalid syntax)"))) := by
  have h := claim_C2_bool_tokens [("BoolValue", ⟨GoType.boolean, "", []⟩)]
    [("BoolValue", GoVal.vbool false)] "BoolValue" ⟨GoType.boolean, "", []⟩ rfl rfl
  exact ⟨h.1, h.2.2.2.1,
    h.2.2.2.2 "2" (by decide) (by decide) (by decide) (by decide),
    h.2.2.2.2 "TRUE" (by decide) (by decide) (by decide) (by decide),
    h.2.2.2.2 "t" (by decide) (by decide) (by decide) (by decide)⟩

/-- C5: for a pointer-typed field, a successful conversion of the raw
value for the pointee type leaves the field non-nil (`vptr (some v)`)
pointing at the converted value; a failed conversion returns a
recoverable error and the instance — hence the field — keeps its prior
value: no partial write occurs. -/
theorem claim_C5_pointer_field (tbl : Table) (inst : Inst) (f : String)
    (m : FieldMetadata) (inner : GoType) (hf : tbl.lookup f = some m)
    (hp : m.type = .ptr inner) :
    (∀ raw v, convert inner raw = .ok v →
      AssignToField tbl inst f raw = .result (setField inst f (.vptr (some v))) none ∧
      (setField inst f (.vptr (some v))).lookup f = some (.vptr (some v))) ∧
    (∀ raw e, convert inner raw = .error e →
      AssignToField tbl inst f raw = .result inst
        (some ("failed to set field " ++ f ++ " with value " ++ raw ++
          " (" ++ e ++ ")"))) := by
  constructor
  · intro raw v hc
    constructor
    · simp only [AssignToField, hf, hp, convert, hc]
    · exact lookup_setField_self inst f (.vptr (some v))
  · intro raw e hc
    simp only [AssignToField, hf, hp, convert, hc]

/-- Witness for C5 on concrete pointer fields: assigning `strPtr` to a
`*string` field makes it point at the copied string (and the field reads
back non-nil), while assigning non-numeric text to a `*int8` field fails
recoverably and leaves the freshly zeroed instance (field nil)
unchanged. -/
theorem claim_C5_witness :
    (AssignToField [("StringPtrValue", ⟨GoType.ptr .string, "", []⟩)]
        [("StringPtrValue", GoVal.vptr none)] "StringPtrValue" "strPtr" =
      .result (setField [("StringPtrValue", GoVal.vptr none)] "StringPtrValue"
        (.vptr (some (.vstr "strPtr")))) none) ∧
    ((setField [("StringPtrValue", GoVal.vptr none)] "StringPtrValue"
        (.vptr (some (.vstr "strPtr")))).lookup "StringPtrValue" =
      some (.vptr (some (.vstr "strPtr")))) ∧
    (AssignToField [("Int8PtrValue", ⟨GoType.ptr (.int 8), "", []⟩)]
        [("Int8PtrValue", GoVal.vptr none)] "Int8PtrValue" "abc" =
      .result [("Int8PtrValue", GoVal.vptr none)]
        (some ("failed to set field Int8PtrValue with value abc" ++
          " (strconv.ParseInt: parsing abc: invalid syntax)"))) := by
  have h₁ := claim_C5_pointer_field [("StringPtrValue", ⟨GoType.ptr .string, "", []⟩)]
    [("StringPtrValue", GoVal.vptr none)] "StringPtrValue"
    ⟨GoType.ptr .string, "", []⟩ .string rfl rfl
  have h₂ := claim_C5_pointer_field [("Int8PtrValue", ⟨GoType.ptr (.int 8), "", []⟩)]
    [("Int8PtrValue", GoVal.vptr none)] "Int8PtrValue"
    ⟨GoType.ptr (.int 8), "", []⟩ (.int 8) rfl rfl
  obtain ⟨ha, hb⟩ := h₁.1 "strPtr" (.vstr "strPtr") rfl
  exact ⟨ha, hb, h₂.2 "abc" "strconv.ParseInt: parsing abc: invalid syntax" rfl⟩

/-- C1: for a signed integer field of bit width `W`, assigning the base-10
text of any integer in `[-2^(W-1), 2^(W-1))` succeeds and the field holds
exactly that value; text denoting a value outside the width, and
malformed integer text, yield a recoverable error (not a panic) that
leaves the instance untouched; and the same for an unsigned field of
width `W` with range `[0, 2^W)`, whose parse accepts digits only (so in
particular negative input fails as malformed). -/
theorem claim_C1_integer_roundtrip (tbl : Table) (inst : Inst) (f : String)
    (m : FieldMetadata) (W : Nat) (hf : tbl.lookup f = some m) :
    (m.type = .int W →
      (∀ v : Int, -(2 ^ (W - 1) : Int) ≤ v → v < (2 ^ (W - 1) : Int) →
        AssignToField tbl inst f (intText v) =
          .result (setField inst f (.vint v)) none ∧
        (setField inst f (.vint v)).lookup f = some (.vint v)) ∧
      (∀ v : Int, v < -(2 ^ (W - 1) : Int) ∨ (2 ^ (W - 1) : Int) ≤ v →
        AssignToField tbl inst f (intText v) = .result inst
          (some ("failed to set field " ++ f ++ " with value " ++ intText v ++ " (" ++
            ("strconv.ParseInt: parsing " ++ intText v ++ ": value out of range") ++
            ")"))) ∧
      (∀ raw : String, parseIntChars raw.data = none →
        AssignToField tbl inst f raw = .result inst
          (some ("failed to set field " ++ f ++ " with value " ++ raw ++ " (" ++
            ("strconv.ParseInt: parsing " ++ raw ++ ": invalid syntax") ++ ")")))) ∧
    (m.type = .uint W →
      (∀ n : Nat, n < 2 ^ W →
        AssignToField tbl inst f (natText n) =
          .result (setField inst f (.vuint n)) none ∧
        (setField inst f (.vuint n)).lookup f = some (.vuint n)) ∧
      (∀ n : Nat, 2 ^ W ≤ n →
        AssignToField tbl inst f (natText n) = .result inst
          (some ("failed to set field " ++ f ++ " with value " ++ natText n ++ " (" ++
            ("strconv.ParseUint: parsing " ++ natText n ++ ": value out of range") ++
            ")"))) ∧
      (∀ raw : String, parseNatDigits raw.data = none →
        AssignToField tbl inst f raw = .result inst
          (some ("failed to set field " ++ f ++ " with value " ++ raw ++ " (" ++
            ("strconv.ParseUint: parsing " ++ raw ++ ": invalid syntax") ++ ")")))) := by
  constructor
  · intro htype
    refine ⟨?_, ?_, ?_⟩
    · intro v hlo hhi
      have hconv : convert (.int W) (intText v) = .ok (.vint v) := by
        simp only [convert, show (intText v).data = intRepr v from rfl,
          parseIntChars_intRepr]
        rw [if_pos ⟨hlo, hhi⟩]
      constructor
      · simp only [AssignToField, hf, htype, hconv]
      · exact lookup_setField_self inst f (.vint v)
    · intro v hout
      have hne : ¬(-(2 ^ (W - 1) : Int) ≤ v ∧ v < (2 ^ (W - 1) : Int)) := by
        rcases hout with h | h
        · exact fun hc => absurd hc.1 (by linarith)
        · exact fun hc => absurd hc.2 (by linarith)
      have hconv : convert (.int W) (intText v) =
          .error ("strconv.ParseInt: parsing " ++ intText v ++ ": value out of range") := by
        simp only [convert, show (intText v).data = intRepr v from rfl,
          parseIntChars_intRepr]
        rw [if_neg hne]
      simp only [AssignToField, hf, htype, hconv]
    · intro raw hraw
      have hconv : convert (.int W) raw =
          .error ("strconv.ParseInt: parsing " ++ raw ++ ": invalid syntax") := by
        simp only [convert, hraw]
      simp only [AssignToField, hf, htype, hconv]
  · intro htype
    refine ⟨?_, ?_, ?_⟩
    · intro n hn
      have hconv : convert (.uint W) (natText n) = .ok (.vuint n) := by
        simp only [convert, show (natText n).data = natRepr n from rfl,
          parseNatDigits_natRepr]
        rw [if_pos hn]
      constructor
      · simp only [AssignToField, hf, htype, hconv]
      · exact lookup_setField_self inst f (.vuint n)
    · intro n hn
      have hconv : convert (.uint W) (natText n) =
          .error ("strconv.ParseUint: parsing " ++ natText n ++ ": value out of range") := by
        simp only [convert, show (natText n).data = natRepr n from rfl,
          parseNatDigits_natRepr]
        rw [if_neg (not_lt.mpr hn)]
      simp only [AssignToField, hf, htype, hconv]
    · intro raw hraw
      have hconv : convert (.uint W) raw =
          .error ("strconv.ParseUint: parsing " ++ raw ++ ": invalid syntax") := by
        simp only [convert, hraw]
      simp only [AssignToField, hf, htype, hconv]

/-- Witness for C1 at the spec's concrete scenario on 8-bit fields:
`123` round-trips into an `int8` field, `200` overflows it with a
recoverable error, `abc` is malformed, `99` round-trips into a `uint8`
field, `300` overflows it, and `-123` fails for the unsigned field. -/
theorem claim_C1_witness :
    (intText 123 = "123" ∧ intText 200 = "200" ∧ natText 99 = "99" ∧
      natText 300 = "300") ∧
    (AssignToField [("Int8Value", ⟨GoType.int 8, "", []⟩)] [("Int8Value", GoVal.vint 0)]
        "Int8Value" (intText 123) =
      .result (setField [("Int8Value", GoVal.vint 0)] "Int8Value" (.vint 123)) none) ∧
    ((setField [("Int8Value", GoVal.vint 0)] "Int8Value" (.vint 123)).lookup
        "Int8Value" = some (.vint 123)) ∧
    (AssignToField [("Int8Value", ⟨GoType.int 8, "", []⟩)] [("Int8Value", GoVal.vint 0)]
        "Int8Value" (intText 200) =
      .result [("Int8Value", GoVal.vint 0)]
        (some ("failed to set field Int8Value with value 200" ++
          " (strconv.ParseInt: parsing 200: value out of range)"))) ∧
    (AssignToField [("Int8Value", ⟨GoType.int 8, "", []⟩)] [("Int8Value", GoVal.vint 0)]
        "Int8Value" "abc" =
      .result [("Int8Value", GoVal.vint 0)]
        (some ("failed to set field Int8Value with value abc" ++
          " (strconv.ParseInt: parsing abc: invalid syntax)"))) ∧
    (AssignToField [("Uint8Value", ⟨GoType.uint 8, "", []⟩)]
        [("Uint8Value", GoVal.vuint 0)] "Uint8Value" (natText 99) =
      .result (setField [("Uint8Value", GoVal.vuint 0)] "Uint8Value" (.vuint 99))
        none) ∧
    (AssignToField [("Uint8Value", ⟨GoType.uint 8, "", []⟩)]
        [("Uint8Value", GoVal.vuint 0)] "Uint8Value" (natText 300) =
      .result [("Uint8Value", GoVal.vuint 0)]
        (some ("failed to set field Uint8Value with value 300" ++
          " (strconv.ParseUint: parsing 300: value out of range)"))) ∧
    (AssignToField [("Uint8Value", ⟨GoType.uint 8, "", []⟩)]
        [("Uint8Value", GoVal.vuint 0)] "Uint8Value" "-123" =
      .result [("Uint8Value", GoVal.vuint 0)]
        (some ("failed to set field Uint8Value with value -123" ++
          " (strconv.ParseUint: parsing -123: invalid syntax)"))) := by
  have hi := claim_C1_integer_roundtrip [("Int8Value", ⟨GoType.int 8, "", []⟩)]
    [("Int8Value", GoVal.vint 0)] "Int8Value" ⟨GoType.int 8, "", []⟩ 8 rfl
  have hu := claim_C1_integer_roundtrip [("Uint8Value", ⟨GoType.uint 8, "", []⟩)]
    [("Uint8Value", GoVal.vuint 0)] "Uint8Value" ⟨GoType.uint 8, "", []⟩ 8 rfl
  obtain ⟨hok, hlook⟩ := (hi.1 rfl).1 123 (by decide) (by decide)
  obtain ⟨huok, _⟩ := (hu.2 rfl).1 99 (by decide)
  exact ⟨⟨rfl, rfl, rfl, rfl⟩, hok, hlook,
    (hi.1 rfl).2.1 200 (Or.inr (by decide)),
    (hi.1 rfl).2.2 "abc" rfl,
    huok,
    (hu.2 rfl).2.1 300 (by decide),
    (hu.2 rfl).2.2 "-123" rfl⟩

/-- C10: invariant of every successfully built metadata table: the table
is exactly the spec-side flattening (so each descriptor's `anonymous`
chain is precisely the chain of embedded-struct names on the path to its
leaf), its key list is exactly the list of non-anonymous (leaf) field
names reachable through flattening — the name of an anonymous field
itself is never collected as a key — and the keys are pairwise
distinct. -/
theorem claim_C10_table_invariant (t : GoType) (tbl : Table)
    (h : StructMetadata t = .ok tbl) :
    flatEntries t [] = some tbl ∧
    flattenNames t = some (tbl.map Prod.fst) ∧
    (tbl.map Prod.fst).Nodup := by
  obtain ⟨es, hfe, hci, htbl⟩ := processType_ok t [] [] tbl h
  have htbl' : tbl = es := by simpa using htbl
  subst htbl'
  refine ⟨hfe, ?_, ?_⟩
  · rw [flattenNames_eq t [], hfe]
    rfl
  · exact (canInsertAll_nodup tbl [] hci).1

/-- Witness for C10 on the embedded test fixture: the computed table is
the spec-side flattening, its keys are the three leaf names (the embedded
struct names `testEmbeddedStruct`/`testDeepEmbeddedStruct` appear only
inside the `anonymous` chains), and the keys are distinct. -/
theorem claim_C10_witness :
    StructMetadata testStructEmb = .ok testStructEmbTable ∧
    flatEntries testStructEmb [] = some testStructEmbTable ∧
    flattenNames testStructEmb =
      some ["DeepEmbeddedValue", "EmbeddedValue", "StringValue"] ∧
    (testStructEmbTable.map Prod.fst).Nodup := by
  have hok : StructMetadata testStructEmb = .ok testStructEmbTable := by
    simp [StructMetadata, processType, processFields, testStructEmb,
      testEmbeddedStruct, testDeepEmbeddedStruct, testStructEmbTable]
  have h := claim_C10_table_invariant testStructEmb testStructEmbTable hok
  refine ⟨hok, h.1, ?_, h.2.2⟩
  rw [h.2.1]
  rfl

/-- C4: a field reachable only through (any level of) embedded
sub-structs, with no naming conflict, appears in the flattened metadata
table under its bare name, and assigning to the enclosing struct by that
bare name writes the embedded field's (successfully converted) value. -/
theorem claim_C4_embedded_field_assignable (t : GoType) (tbl es : Table)
    (x : String) (m : FieldMetadata)
    (hok : StructMetadata t = .ok tbl) (hfe : flatEntries t [] = some es)
    (hmem : (x, m) ∈ es) (_hanon : m.anonymous ≠ []) :
    tbl.lookup x = some m ∧
    ∀ (inst : Inst) (raw : String) (v : GoVal), convert m.type raw = .ok v →
      AssignToField tbl inst x raw = .result (setField inst x v) none ∧
      (setField inst x v).lookup x = some v := by
  obtain ⟨es', hfe', hci, htbl⟩ := processType_ok t [] [] tbl hok
  rw [hfe] at hfe'
  injection hfe' with hes
  subst hes
  have htbl' : tbl = es := by simpa using htbl
  subst htbl'
  have hnodup := (canInsertAll_nodup tbl [] hci).1
  have hlk : tbl.lookup x = some m := lookup_of_mem_nodup tbl x m hnodup hmem
  refine ⟨hlk, ?_⟩
  intro inst raw v hc
  constructor
  · simp only [AssignToField, hlk, hc]
  · exact lookup_setField_self inst x v

/-- Witness for C4 on the embedded test fixture: `EmbeddedValue`, declared
two levels down inside an anonymous sub-struct, is present in the
enclosing struct's table under its bare name, and assigning `embedded` to
it on a fresh instance stores the string. -/
theorem claim_C4_witness :
    testStructEmbTable.lookup "EmbeddedValue" =
      some ⟨.string, "", ["testEmbeddedStruct"]⟩ ∧
    AssignToField testStructEmbTable [] "EmbeddedValue" "embedded" =
      .result (setField [] "EmbeddedValue" (.vstr "embedded")) none ∧
    (setField [] "EmbeddedValue" (.vstr "embedded")).lookup "EmbeddedValue" =
      some (.vstr "embedded") := by
  have hok : StructMetadata testStructEmb = .ok testStructEmbTable := by
    simp [StructMetadata, processType, processFields, testStructEmb,
      testEmbeddedStruct, testDeepEmbeddedStruct, testStructEmbTable]
  have hfe : flatEntries testStructEmb [] = some testStructEmbTable := by
    simp [flatEntries, flatEntriesFields, testStructEmb, testEmbeddedStruct,
      testDeepEmbeddedStruct, testStructEmbTable]
  have h := claim_C4_embedded_field_assignable testStructEmb testStructEmbTable
    testStructEmbTable "EmbeddedValue" ⟨.string, "", ["testEmbeddedStruct"]⟩
    hok hfe (by simp [testStructEmbTable]) (by simp)
  obtain ⟨hlk, hass⟩ := h
  obtain ⟨ha, hb⟩ := hass [] "embedded" (.vstr "embedded") rfl
  exact ⟨hlk, ha, hb⟩

/-- C3: a struct type in which two embedded (anonymous) sub-structs each
contribute a leaf field with the same flattened name `x` makes metadata
extraction abort fatally: it never returns a table, and (when every
embedded type is structurally a struct, so the flattened name list `ns` is
defined) the panic message names a field that indeed occurs at least
twice among the flattened names. -/
theorem claim_C3_conflicting_embedded_abort
    (pre mid post : List GoField) (n₁ tg₁ n₂ tg₂ : String) (ty₁ ty₂ : GoType)
    (x : String) (ns ns₁ ns₂ : List String)
    (hshape : flattenNames (.strukt (pre ++
      (.mk n₁ tg₁ true ty₁ :: (mid ++ (.mk n₂ tg₂ true ty₂ :: post))))) = some ns)
    (h₁ : flattenNames ty₁ = some ns₁) (h₂ : flattenNames ty₂ = some ns₂)
    (hx₁ : x ∈ ns₁) (hx₂ : x ∈ ns₂) :
    (∀ tbl, StructMetadata (.strukt (pre ++
      (.mk n₁ tg₁ true ty₁ :: (mid ++ (.mk n₂ tg₂ true ty₂ :: post))))) ≠ .ok tbl) ∧
    (∃ k, 2 ≤ ns.count k ∧
      StructMetadata (.strukt (pre ++
      (.mk n₁ tg₁ true ty₁ :: (mid ++ (.mk n₂ tg₂ true ty₂ :: post))))) = .error ("field " ++ k ++ " is ambiguous")) := by
  have hsh := hshape
  rw [flattenNames] at hsh
  obtain ⟨nPre, nR, hPre, hR, hns⟩ := flattenNamesFields_append pre
    (.mk n₁ tg₁ true ty₁ :: (mid ++ (.mk n₂ tg₂ true ty₂ :: post))) ns hsh
  rw [flattenNamesFields] at hR
  simp only [eq_self_iff_true, if_true] at hR
  rw [h₁] at hR
  cases hmid : flattenNamesFields (mid ++ (.mk n₂ tg₂ true ty₂ :: post)) with
  | none => rw [hmid] at hR; exact absurd hR (by simp)
  | some nR2 =>
    rw [hmid] at hR
    simp only [Option.some.injEq] at hR
    obtain ⟨nMid, nR3, hMid, hR3, hnR2⟩ := flattenNamesFields_append mid
      (.mk n₂ tg₂ true ty₂ :: post) nR2 hmid
    rw [flattenNamesFields] at hR3
    simp only [eq_self_iff_true, if_true] at hR3
    rw [h₂] at hR3
    cases hpost : flattenNamesFields post with
    | none => rw [hpost] at hR3; exact absurd hR3 (by simp)
    | some nPost =>
      rw [hpost] at hR3
      simp only [Option.some.injEq] at hR3
      have hcount : 2 ≤ ns.count x := by
        have c₁ : 1 ≤ ns₁.count x := List.one_le_count_iff.mpr hx₁
        have c₂ : 1 ≤ ns₂.count x := List.one_le_count_iff.mpr hx₂
        rw [hns, ← hR, hnR2, ← hR3]
        simp only [List.count_append]
        omega
      have hnotok : ∀ tbl, StructMetadata (.strukt (pre ++
      (.mk n₁ tg₁ true ty₁ :: (mid ++ (.mk n₂ tg₂ true ty₂ :: post))))) ≠ .ok tbl := by
        intro tbl hok
        obtain ⟨es, hfe, hci, htbl⟩ := processType_ok _ [] [] tbl hok
        have hmap := flattenNames_eq (.strukt (pre ++
      (.mk n₁ tg₁ true ty₁ :: (mid ++ (.mk n₂ tg₂ true ty₂ :: post))))) []
        rw [hshape, hfe] at hmap
        simp only [Option.map_some', Option.some.injEq] at hmap
        have hnodup := (canInsertAll_nodup es [] hci).1
        have hle := List.nodup_iff_count_le_one.mp hnodup x
        rw [← hmap] at hle
        omega
      refine ⟨hnotok, ?_⟩
      cases hSM : StructMetadata (.strukt (pre ++
      (.mk n₁ tg₁ true ty₁ :: (mid ++ (.mk n₂ tg₂ true ty₂ :: post))))) with
      | ok tbl => exact absurd hSM (hnotok tbl)
      | error e =>
        have hmap := flattenNames_eq (.strukt (pre ++
      (.mk n₁ tg₁ true ty₁ :: (mid ++ (.mk n₂ tg₂ true ty₂ :: post))))) []
        rw [hshape] at hmap
        cases hfe : flatEntries (.strukt (pre ++
      (.mk n₁ tg₁ true ty₁ :: (mid ++ (.mk n₂ tg₂ true ty₂ :: post))))) [] with
        | none => rw [hfe] at hmap; simp at hmap
        | some es =>
          rw [hfe] at hmap
          simp only [Option.map_some', Option.some.injEq] at hmap
          obtain ⟨k, hk, hc⟩ := processType_error _ [] [] es e hfe hSM
          refine ⟨k, ?_, by rw [hk]⟩
          rw [hmap]
          simpa using hc

/-- Witness for C3: two embedded sub-structs `EmbA`, `EmbB` each declaring
a field `Value` make metadata extraction abort with the panic message
naming the ambiguous field (and never produce a table). -/
theorem claim_C3_witness :
    (∀ tbl, StructMetadata conflictingStruct ≠ .ok tbl) ∧
    (∃ k, 2 ≤ (["Value", "Value"].count k) ∧
      StructMetadata conflictingStruct = .error ("field " ++ k ++ " is ambiguous")) := by
  have h := claim_C3_conflicting_embedded_abort [] [] [] "EmbA" "" "EmbB" ""
    (.strukt [.mk "Value" "" false .string]) (.strukt [.mk "Value" "" false (.int 8)])
    "Value" ["Value", "Value"] ["Value"] ["Value"]
    (by simp [flattenNames, flattenNamesFields])
    (by simp [flattenNames, flattenNamesFields])
    (by simp [flattenNames, flattenNamesFields])
    (by simp) (by simp)
  exact ⟨fun tbl => h.1 tbl, h.2⟩

theorem decodeQuery_multi_err (tbl : Table) (lkup : List (String × String)) :
    ∀ (query : List (String × List String)) (inst : Inst),
      (∀ f ∈ lkup.map Prod.snd, (tbl.lookup f).isSome = true) →
      (∃ q vs, (q, vs) ∈ query ∧ (lkup.lookup (lowerString q)).isSome = true ∧
        2 ≤ vs.length) →
      ∃ e, decodeQueryParameters tbl lkup query inst = .err e := by
  intro query
  induction query with
  | nil =>
    intro inst _ hex
    obtain ⟨q, vs, hmem, _⟩ := hex
    simp at hmem
  | cons p rest ih =>
    intro inst hcons hex
    obtain ⟨qname, qvals⟩ := p
    cases hlk : lkup.lookup (lowerString qname) with
    | none =>
      obtain ⟨q, vs, hmem, hq, hlen⟩ := hex
      rcases List.mem_cons.mp hmem with hEq | hmem'
      · injection hEq with hq1 hq2
        subst hq1
        rw [hlk] at hq
        simp at hq
      · obtain ⟨e, he⟩ := ih inst hcons ⟨q, vs, hmem', hq, hlen⟩
        refine ⟨e, ?_⟩
        simp only [decodeQueryParameters, hlk]
        exact he
    | some fieldName =>
      cases qvals with
      | nil =>
        refine ⟨"expecting one value for query parameter " ++ qname, ?_⟩
        simp [decodeQueryParameters, hlk]
      | cons v vtail =>
        cases vtail with
        | cons v₂ vrest =>
          refine ⟨"expecting one value for query parameter " ++ qname, ?_⟩
          simp [decodeQueryParameters, hlk]
        | nil =>
          obtain ⟨inst', err, hA⟩ := AssignToField_result_of_isSome tbl inst fieldName v
            (hcons fieldName (lookup_pair_mem_snd lkup (lowerString qname) fieldName hlk))
          cases err with
          | some e =>
            refine ⟨"failed to set value for query parameter " ++ qname ++
              " (" ++ e ++ ")", ?_⟩
            simp [decodeQueryParameters, hlk, hA]
          | none =>
            obtain ⟨q, vs, hmem, hq, hlen⟩ := hex
            rcases List.mem_cons.mp hmem with hEq | hmem'
            · injection hEq with hq1 hq2
              subst hq2
              simp at hlen
            · obtain ⟨e, he⟩ := ih inst' hcons ⟨q, vs, hmem', hq, hlen⟩
              refine ⟨e, ?_⟩
              simp only [decodeQueryParameters, hlk, hA]
              exact he

theorem decodeHeader_multi_err (tbl : Table) (lkup : List (String × String)) :
    ∀ (headers : List (String × List String)) (inst : Inst),
      (∀ f ∈ lkup.map Prod.snd, (tbl.lookup f).isSome = true) →
      (∃ q vs, (q, vs) ∈ headers ∧ (lkup.lookup (lowerString q)).isSome = true ∧
        2 ≤ vs.length) →
      ∃ e, decodeHeaderParameters tbl lkup headers inst = .err e := by
  intro headers
  induction headers with
  | nil =>
    intro inst _ hex
    obtain ⟨q, vs, hmem, _⟩ := hex
    simp at hmem
  | cons p rest ih =>
    intro inst hcons hex
    obtain ⟨hname, hvals⟩ := p
    cases hlk : lkup.lookup (lowerString hname) with
    | none =>
      obtain ⟨q, vs, hmem, hq, hlen⟩ := hex
      rcases List.mem_cons.mp hmem with hEq | hmem'
      · injection hEq with hq1 hq2
        subst hq1
        rw [hlk] at hq
        simp at hq
      · obtain ⟨e, he⟩ := ih inst hcons ⟨q, vs, hmem', hq, hlen⟩
        refine ⟨e, ?_⟩
        simp only [decodeHeaderParameters, hlk]
        exact he
    | some fieldName =>
      cases hvals with
      | nil =>
        refine ⟨"expecting one value for header parameter " ++ hname, ?_⟩
        simp [decodeHeaderParameters, hlk]
      | cons v vtail =>
        cases vtail with
        | cons v₂ vrest =>
          refine ⟨"expecting one value for header parameter " ++ hname, ?_⟩
          simp [decodeHeaderParameters, hlk]
        | nil =>
          obtain ⟨inst', err, hA⟩ := AssignToField_result_of_isSome tbl inst fieldName v
            (hcons fieldName (lookup_pair_mem_snd lkup (lowerString hname) fieldName hlk))
          cases err with
          | some e =>
            refine ⟨"failed to set value for header parameter " ++ hname ++
              " (" ++ e ++ ")", ?_⟩
            simp [decodeHeaderParameters, hlk, hA]
          | none =>
            obtain ⟨q, vs, hmem, hq, hlen⟩ := hex
            rcases List.mem_cons.mp hmem with hEq | hmem'
            · injection hEq with hq1 hq2
              subst hq2
              simp at hlen
            · obtain ⟨e, he⟩ := ih inst' hcons ⟨q, vs, hmem', hq, hlen⟩
              refine ⟨e, ?_⟩
              simp only [decodeHeaderParameters, hlk, hA]
              exact he

/-- C7: the binder accepts exactly one value per matched query or header
key.  With exactly one value, the assignment engine is invoked with that
value and its result decides the pass; if the request carries two or more
values for a matched key — assuming the tag lookup map is consistent with
the metadata table, as it is for tables and lookup maps built from the
same struct type — the pass returns a decode error. -/
theorem claim_C7_single_value_per_key (tbl : Table)
    (lkup : List (String × String)) (inst : Inst) :
    (∀ qname v fieldName, lkup.lookup (lowerString qname) = some fieldName →
      decodeQueryParameters tbl lkup [(qname, [v])] inst =
        match AssignToField tbl inst fieldName v with
        | .fatal msg => .fatal msg
        | .result inst' none => .ok inst'
        | .result _ (some e) =>
          .err ("failed to set value for query parameter " ++ qname ++
            " (" ++ e ++ ")")) ∧
    (∀ query, (∀ f ∈ lkup.map Prod.snd, (tbl.lookup f).isSome = true) →
      (∃ q vs, (q, vs) ∈ query ∧ (lkup.lookup (lowerString q)).isSome = true ∧
        2 ≤ vs.length) →
      ∃ e, decodeQueryParameters tbl lkup query inst = .err e) ∧
    (∀ hname v fieldName, lkup.lookup (lowerString hname) = some fieldName →
      decodeHeaderParameters tbl lkup [(hname, [v])] inst =
        match AssignToField tbl inst fieldName v with
        | .fatal msg => .fatal msg
        | .result inst' none => .ok inst'
        | .result _ (some e) =>
          .err ("failed to set value for header parameter " ++ hname ++
            " (" ++ e ++ ")")) ∧
    (∀ headers, (∀ f ∈ lkup.map Prod.snd, (tbl.lookup f).isSome = true) →
      (∃ q vs, (q, vs) ∈ headers ∧ (lkup.lookup (lowerString q)).isSome = true ∧
        2 ≤ vs.length) →
      ∃ e, decodeHeaderParameters tbl lkup headers inst = .err e) := by
  refine ⟨?_, fun query => decodeQuery_multi_err tbl lkup query inst, ?_,
    fun headers => decodeHeader_multi_err tbl lkup headers inst⟩
  · intro qname v fieldName hlk
    cases hA : AssignToField tbl inst fieldName v with
    | fatal msg => simp [decodeQueryParameters, hlk, hA]
    | result inst' err =>
      cases err with
      | none => simp [decodeQueryParameters, hlk, hA]
      | some e => simp [decodeQueryParameters, hlk, hA]
  · intro hname v fieldName hlk
    cases hA : AssignToField tbl inst fieldName v with
    | fatal msg => simp [decodeHeaderParameters, hlk, hA]
    | result inst' err =>
      cases err with
      | none => simp [decodeHeaderParameters, hlk, hA]
      | some e => simp [decodeHeaderParameters, hlk, hA]

/-- Witness for C7 on a concrete binding: with lookup key `key` mapped to
string field `Field`, a query/header carrying `Key: [v1]` assigns `v1`,
while `Key: [v1, v2]` makes the pass fail with a decode error. -/
theorem claim_C7_witness :
    (decodeQueryParameters [("Field", ⟨GoType.string, "", []⟩)] [("key", "Field")]
        [("Key", ["v1"])] [] = .ok (setField [] "Field" (.vstr "v1"))) ∧
    (∃ e, decodeQueryParameters [("Field", ⟨GoType.string, "", []⟩)] [("key", "Field")]
        [("Key", ["v1", "v2"])] [] = .err e) ∧
    (decodeHeaderParameters [("Field", ⟨GoType.string, "", []⟩)] [("key", "Field")]
        [("Key", ["v1"])] [] = .ok (setField [] "Field" (.vstr "v1"))) ∧
    (∃ e, decodeHeaderParameters [("Field", ⟨GoType.string, "", []⟩)] [("key", "Field")]
        [("Key", ["v1", "v2"])] [] = .err e) := by
  have h := claim_C7_single_value_per_key [("Field", ⟨GoType.string, "", []⟩)]
    [("key", "Field")] []
  refine ⟨?_, ?_, ?_, ?_⟩
  · exact h.1 "Key" "v1" "Field" rfl
  · exact h.2.1 [("Key", ["v1", "v2"])] (by decide)
      ⟨"Key", ["v1", "v2"], by simp, by decide, by decide⟩
  · exact h.2.2.1 "Key" "v1" "Field" rfl
  · exact h.2.2.2 [("Key", ["v1", "v2"])] (by decide)
      ⟨"Key", ["v1", "v2"], by simp, by decide, by decide⟩

/-- C9: the binder decodes the JSON request body into the parameter struct
only when the Content-Type header equals `application/json` under
case-insensitive comparison; for any other or absent Content-Type the body
is ignored entirely and body decoding returns no error, regardless of the
body's content or of how the JSON decoder would behave on it. -/
theorem claim_C9_json_body_content_type_gate
    (jsonDecode : String → Except String Inst) (contentType body : String)
    (inst : Inst) :
    (eqFold contentType "application/json" = false →
      decodeJSONBodyParameters jsonDecode contentType body inst = .ok inst) ∧
    (eqFold contentType "application/json" = true →
      decodeJSONBodyParameters jsonDecode contentType body inst =
        match jsonDecode body with
        | .ok inst' => .ok inst'
        | .error e => .error ("failed to decode json body (" ++ e ++ ")")) := by
  constructor
  · intro h
    simp [decodeJSONBodyParameters, h]
  · intro h
    simp only [decodeJSONBodyParameters, h, if_true]

/-- Witness for C9: an always-failing JSON decoder is never consulted for
Content-Type `text/plain` or for an absent (empty) Content-Type — body
decoding succeeds untouched — while the mixed-case `Application/JSON`
does reach the decoder. -/
theorem claim_C9_witness :
    (decodeJSONBodyParameters (fun _ => .error "boom") "text/plain"
      "not json at all" [] = .ok []) ∧
    (decodeJSONBodyParameters (fun _ => .error "boom") ""
      "not json at all" [] = .ok []) ∧
    (decodeJSONBodyParameters (fun _ => .error "boom") "Application/JSON"
      "not json at all" [] =
      .error ("failed to decode json body (" ++ "boom" ++ ")")) := by
  have h₁ := claim_C9_json_body_content_type_gate (fun _ => .error "boom")
    "text/plain" "not json at all" []
  have h₂ := claim_C9_json_body_content_type_gate (fun _ => .error "boom")
    "" "not json at all" []
  have h₃ := claim_C9_json_body_content_type_gate (fun _ => .error "boom")
    "Application/JSON" "not json at all" []
  exact ⟨h₁.1 (by decide), h₂.1 (by decide), h₃.2 (by decide)⟩

end GoBase
